import Mathlib

/-
Verification development for the SQLite-backed slug index of the
Grokipedia-vs-Wikipedia repository.  The definitions below are a shallow
embedding of `app/utils/sqlite_slug_index.py` and `scripts/build_slug_db.py`:
Python strings are Lean strings, SQLite tables are Lean lists of rows,
and the FTS5 engine (external to the repository) is an oracle parameter.
-/

namespace SlugIndex

/-- Python whitespace characters, as used by `str.strip` and `str.split`. -/
def isPyWs (c : Char) : Bool :=
  c == ' ' || c == '\t' || c == '\n' || c == '\r' || c == '\x0b' || c == '\x0c'

/-- Model of Python `str.strip()`: drop leading and trailing whitespace. -/
def pyStrip (s : String) : String :=
  String.mk (((s.data.dropWhile isPyWs).reverse.dropWhile isPyWs).reverse)

/-- Model of Python `str.lower()` (restricted to the ASCII case mapping). -/
def pyLower (s : String) : String :=
  String.mk (s.data.map Char.toLower)

/-- Model of Python `s.replace('_', ' ')`: the word-separator character is
replaced by a space. -/
def underscoreToSpace (s : String) : String :=
  String.mk (s.data.map (fun c => if c == '_' then ' ' else c))

/-- Model of Python `str.split()` on a character list: maximal runs of
non-whitespace characters, with empty pieces discarded. -/
def pyWordsAux : List Char → List Char → List (List Char)
  | [], acc => if acc.isEmpty then [] else [acc.reverse]
  | c :: cs, acc =>
      if isPyWs c then
        if acc.isEmpty then pyWordsAux cs [] else acc.reverse :: pyWordsAux cs []
      else pyWordsAux cs (c :: acc)

/-- Model of Python `str.split()`. -/
def pyWords (s : String) : List (List Char) :=
  pyWordsAux s.data []

/-- The FTS5 query term built by strategy 4 of `search`:
each whitespace-separated word of the normalized query becomes a prefix
term, and the terms are joined by spaces. -/
def ftsTermOf (qn : String) : String :=
  String.intercalate " " ((pyWords qn).map (fun w => String.mk (w ++ ['*'])))

/-- A row of the `slugs` table: surrogate key, canonical slug, its
case-folded form, its normalized form, and an optional timestamp. -/
structure SlugRecord where
  id : Nat
  slug : String
  slug_lower : String
  normalized : String
  lastmod : Option String
deriving DecidableEq, Repr

/-- An extracted entry: the slug text and its optional lastmod timestamp. -/
def Entry := String × Option String
deriving DecidableEq, Repr

/-- A sitemap partition directory: the lines of `names.txt` when that file
exists, whether reading the partition succeeds, and the lines of `dates.txt`
when that file exists. -/
structure Partition where
  namesFile : Option (List String)
  readOk : Bool
  datesFile : Option (List String)
deriving DecidableEq, Repr

/-- The stripped lines of the partition timestamp file, or the empty list
when the file is absent, exactly as `_build_index` loads `dates`. -/
def datesLines (p : Partition) : List String :=
  match p.datesFile with
  | some ds => ds.map pyStrip
  | none => []

/-- The loop `for i, slug in enumerate(names)` pairing the i-th kept name
with `dates[i] if i < len(dates) else None`. -/
def pairEntries (dates : List String) : Nat → List String → List Entry
  | _, [] => []
  | i, s :: rest => (s, dates.get? i) :: pairEntries dates (i + 1) rest

/-- Entries produced from one partition: names are the stripped non-blank
lines of the identifier file, each paired with the same-index timestamp
line; a missing or unreadable identifier file yields nothing. -/
def partitionEntries (p : Partition) : List Entry :=
  match p.namesFile with
  | none => []
  | some lines =>
      if p.readOk then
        pairEntries (datesLines p) 0 ((lines.map pyStrip).filter (fun l => l ≠ ""))
      else []

/-- Entry extraction over the whole corpus; the list of partitions is given
in the sorted traversal order the build uses. -/
def extract (corpus : List Partition) : List Entry :=
  (corpus.map partitionEntries).flatten

/-- The row built from an extracted entry, with the derived columns
computed exactly as the build loop computes them; `n` is the number of rows
already in the table, so the surrogate key is `n + 1`. -/
def rowOf (n : Nat) (e : Entry) : SlugRecord :=
  { id := n + 1
    slug := e.1
    slug_lower := pyLower e.1
    normalized := underscoreToSpace (pyLower e.1)
    lastmod := e.2 }

/-- Model of one `INSERT OR IGNORE` of an entry: a duplicate `slug` is a
no-op, otherwise the row is appended. -/
def insertRow (store : List SlugRecord) (e : Entry) : List SlugRecord :=
  if store.any (fun r => r.slug == e.1) then store
  else store ++ [rowOf store.length e]

/-- Model of `executemany` with `INSERT OR IGNORE`: rows are inserted one
by one in order. -/
def insertEntries (store : List SlugRecord) (es : List Entry) : List SlugRecord :=
  es.foldl insertRow store

/-- The table contents produced by inserting an entry list into the fresh
empty table. -/
def buildRows (es : List Entry) : List SlugRecord :=
  insertEntries [] es

/-- The batch size used by both build loops. -/
def batchSize : Nat := 10000

/-- The batched insert loop shared by `_build_index` and
`build_slug_database`: entries accumulate in `batch`; each time the batch
reaches `batchSize` it is inserted and committed; the leftover batch is
inserted and committed after the loop; the final FTS rebuild commits once
more.  Returns the final table, the `total_loaded` counter, and the list of
committed (reader-visible) table states in order. -/
def buildLoop : List Entry → List Entry → List SlugRecord → Nat →
    List SlugRecord × Nat × List (List SlugRecord)
  | [], batch, store, total =>
      if batch.isEmpty then
        (store, total, [store])
      else
        let s := insertEntries store batch
        (s, total + batch.length, [s, s])
  | e :: rest, batch, store, total =>
      let batch1 := batch ++ [e]
      if batchSize ≤ batch1.length then
        let s := insertEntries store batch1
        let r := buildLoop rest [] s (total + batch1.length)
        (r.1, r.2.1, s :: r.2.2)
      else
        buildLoop rest batch1 store total

/-- Model of `SQLiteSlugIndex._build_index`: after the schema is dropped
and recreated the table is empty, then the batched loop runs.  Returns the
final table, the loaded count, and the committed states. -/
def build_index (corpus : List Partition) :
    List SlugRecord × Nat × List (List SlugRecord) :=
  buildLoop (extract corpus) [] [] 0

/-- Model of `scripts/build_slug_db.build_slug_database`: the previous
database file is removed, the schema is created fresh, the same batched
loop runs, and the function returns `total_loaded` together with the built
table. -/
def build_slug_database (corpus : List Partition) : Nat × List SlugRecord :=
  ((build_index corpus).2.1, (build_index corpus).1)

/-- The reader-visible committed dataset states while `_build_index` runs
over a live database: the pre-build table, then the empty table right after
the destructive schema recreation commits, then each batch-commit state. -/
def buildCommits (pre : List SlugRecord) (corpus : List Partition) :
    List (List SlugRecord) :=
  pre :: [] :: (build_index corpus).2.2

/-- Storage operations a call may perform, used to state which accesses
happen on which path. -/
inductive Op where
  | countQuery
  | build
  | exactQ
  | prefixQ
  | containsQ
  | ftsQ
  | existsQ
  | listQ
  | totalQ
deriving DecidableEq, Repr

/-- The state of the database file at `db_path`: the file may be absent,
present without a `slugs` table (so `SELECT COUNT(*)` raises
`OperationalError`), or present with a `slugs` table holding `rows`. -/
inductive DbState where
  | absent
  | noTable
  | table (rows : List SlugRecord)
deriving DecidableEq, Repr

/-- The state of a `SQLiteSlugIndex` object: the database file, the
optional links directory (`none` models a missing or nonexistent source
root), and the `_initialized` flag. -/
structure IndexState where
  db : DbState
  links : Option (List Partition)
  initialized : Bool
deriving DecidableEq, Repr

/-- The rows visible through the connection, empty when no table exists. -/
def currentRows (st : IndexState) : List SlugRecord :=
  match st.db with
  | DbState.table rows => rows
  | _ => []

/-- The branch of `_ensure_initialized` that runs when no ready database
was found: if the links directory exists the index is built and the call
succeeds, otherwise the call fails leaving the state unchanged. -/
def tryBuild (st : IndexState) (ops : List Op) : Bool × IndexState × List Op :=
  match st.links with
  | some corpus =>
      (true,
       { st with db := DbState.table (build_index corpus).1, initialized := true },
       ops ++ [Op.build])
  | none => (false, st, ops)

/-- Model of `SQLiteSlugIndex._ensure_initialized`: an already-initialized
index returns immediately; otherwise the row count of an existing database
is probed (a missing table raises and is swallowed), and a build is
attempted when no usable data is found. -/
def ensure_initialized (st : IndexState) : Bool × IndexState × List Op :=
  if st.initialized then (true, st, [])
  else
    match st.db with
    | DbState.absent => tryBuild st []
    | DbState.noTable => tryBuild st [Op.countQuery]
    | DbState.table rows =>
        if 0 < rows.length then (true, { st with initialized := true }, [Op.countQuery])
        else tryBuild st [Op.countQuery]

/-- Model of a SQL `LIMIT ?` clause with a possibly negative bound: SQLite
treats a negative limit as no limit at all. -/
def sqlLimit {α : Type} (k : Int) (xs : List α) : List α :=
  if k < 0 then xs else xs.take k.toNat

/-- Model of the Python slice `xs[:k]`: a nonnegative bound keeps the first
`k` elements, a negative bound drops the last `-k`. -/
def pySlice {α : Type} (k : Int) (xs : List α) : List α :=
  if 0 ≤ k then xs.take k.toNat else xs.take (xs.length - (-k).toNat)

/-- Stable insertion used by the sort model: an element is placed after
every earlier element it does not strictly precede. -/
def insertSorted {α : Type} (lt : α → α → Bool) (x : α) : List α → List α
  | [] => [x]
  | y :: ys => if lt x y then x :: y :: ys else y :: insertSorted lt x ys

/-- Stable sort model for `ORDER BY`: ties keep their table order. -/
def sortByLt {α : Type} (lt : α → α → Bool) (l : List α) : List α :=
  l.foldr (insertSorted lt) []

/-- Model of `a LIKE b || c` pattern-matching for the patterns the engine
issues, whose parameters contain no LIKE metacharacters: a prefix test. -/
def likeStartsWith (pat s : String) : Bool :=
  pat.data.isPrefixOf s.data

/-- Lexicographic order on character lists, modelling `ORDER BY slug`. -/
def charListLt : List Char → List Char → Bool
  | [], [] => false
  | [], _ :: _ => true
  | _ :: _, [] => false
  | a :: as, b :: bs => a < b || (a == b && charListLt as bs)

/-- Substring test on character lists. -/
def infixAt : List Char → List Char → Bool
  | pat, [] => pat.isEmpty
  | pat, c :: cs => pat.isPrefixOf (c :: cs) || infixAt pat cs

/-- Model of `a LIKE c1 || b || c2` for metacharacter-free parameters:
a substring test. -/
def likeContains (pat s : String) : Bool :=
  infixAt pat.data s.data

/-- Strategy 1 query: exact case-insensitive match on `slug_lower`,
`LIMIT 1`. -/
def exactMatches (store : List SlugRecord) (ql : String) : List String :=
  ((store.filter (fun r => r.slug_lower == ql)).map (fun r => r.slug)).take 1

/-- Strategy 2 query: `normalized` starts with the normalized query,
ordered by ascending slug length, with the SQL limit `k`. -/
def prefixMatches (store : List SlugRecord) (qn : String) (k : Int) : List String :=
  sqlLimit k
    ((sortByLt (fun r s => r.slug.length < s.slug.length)
        (store.filter (fun r => likeStartsWith qn r.normalized))).map (fun r => r.slug))

/-- Sort key of strategy 3: prefix matches first, then ascending length. -/
def containsKey (qn : String) (r : SlugRecord) : Nat × Nat :=
  (if likeStartsWith qn r.normalized then 0 else 1, r.slug.length)

/-- Strategy 3 query: `normalized` contains the normalized query, prefix
matches ordered first, then ascending slug length, SQL limit `k`. -/
def containsMatches (store : List SlugRecord) (qn : String) (k : Int) : List String :=
  sqlLimit k
    ((sortByLt (fun r s =>
        (containsKey qn r).1 < (containsKey qn s).1 ∨
          ((containsKey qn r).1 = (containsKey qn s).1 ∧
            (containsKey qn r).2 < (containsKey qn s).2))
        (store.filter (fun r => likeContains qn r.normalized))).map (fun r => r.slug))

/-- The FTS5 engine is outside the repository; an oracle maps the query
term either to its ranked slug list (already joined back to `slugs`) or to
an `OperationalError` for a malformed term. -/
def FtsOracle := String → Except Unit (List String)

/-- Appending query rows to the accumulated results while skipping slugs
already in `seen` (which always equals the set of accumulated results). -/
def dedupAppend (acc : List String) (l : List String) : List String :=
  l.foldl (fun a x => if x ∈ a then a else a ++ [x]) acc

/-- The normalization `query.lower().replace('_', ' ').strip()` applied to
every query before matching. -/
def normalizeQuery (q : String) : String :=
  pyStrip (underscoreToSpace (pyLower q))

/-- The normalization `query.lower().strip()` used by the exact strategy. -/
def lowerTrim (q : String) : String :=
  pyStrip (pyLower q)

/-- Results accumulated after strategy 1. -/
def acc1 (store : List SlugRecord) (ql : String) : List String :=
  dedupAppend [] (exactMatches store ql)

/-- Results accumulated after strategy 2, whose SQL limit is the remaining
`limit - len(results)`. -/
def acc2 (store : List SlugRecord) (qn ql : String) (limit : Int) : List String :=
  dedupAppend (acc1 store ql)
    (prefixMatches store qn (limit - ((acc1 store ql).length : Int)))

/-- Results accumulated after strategy 3. -/
def acc3 (store : List SlugRecord) (qn ql : String) (limit : Int) : List String :=
  dedupAppend (acc2 store qn ql limit)
    (containsMatches store qn (limit - ((acc2 store qn ql limit).length : Int)))

/-- The body of `SQLiteSlugIndex.search` after the initialization check:
the blank-query guard, then the four-strategy cascade with its
short-circuits, the fuzzy gate, and the `try/except` around strategy 4.
Returns the result list and the strategy queries executed. -/
def searchCore (store : List SlugRecord) (fts : FtsOracle) (query : String)
    (limit : Int) (fuzzy : Bool) : List String × List Op :=
  if query = "" ∨ pyStrip query = "" then ([], [])
  else
    if limit ≤ ((acc1 store (lowerTrim query)).length : Int) then
      (pySlice limit (acc1 store (lowerTrim query)), [Op.exactQ])
    else if limit ≤ ((acc2 store (normalizeQuery query) (lowerTrim query) limit).length : Int) then
      (pySlice limit (acc2 store (normalizeQuery query) (lowerTrim query) limit),
       [Op.exactQ, Op.prefixQ])
    else if limit ≤ ((acc3 store (normalizeQuery query) (lowerTrim query) limit).length : Int)
        ∨ fuzzy = false then
      (pySlice limit (acc3 store (normalizeQuery query) (lowerTrim query) limit),
       [Op.exactQ, Op.prefixQ, Op.containsQ])
    else if ftsTermOf (normalizeQuery query) = "" then
      (pySlice limit (acc3 store (normalizeQuery query) (lowerTrim query) limit),
       [Op.exactQ, Op.prefixQ, Op.containsQ])
    else
      match fts (ftsTermOf (normalizeQuery query)) with
      | Except.error _ =>
          (pySlice limit (acc3 store (normalizeQuery query) (lowerTrim query) limit),
           [Op.exactQ, Op.prefixQ, Op.containsQ, Op.ftsQ])
      | Except.ok rows =>
          (pySlice limit
            (dedupAppend (acc3 store (normalizeQuery query) (lowerTrim query) limit)
              (sqlLimit
                (limit - ((acc3 store (normalizeQuery query) (lowerTrim query) limit).length : Int))
                rows)),
           [Op.exactQ, Op.prefixQ, Op.containsQ, Op.ftsQ])

/-- Model of `SQLiteSlugIndex.search`: the initialization check runs first
(and may build); a failed initialization yields the empty list; otherwise
the cascade body runs against the current rows. -/
def search (st : IndexState) (fts : FtsOracle) (query : String) (limit : Int)
    (fuzzy : Bool) : List String × IndexState × List Op :=
  if (ensure_initialized st).1 then
    ((searchCore (currentRows (ensure_initialized st).2.1) fts query limit fuzzy).1,
     (ensure_initialized st).2.1,
     (ensure_initialized st).2.2 ++
       (searchCore (currentRows (ensure_initialized st).2.1) fts query limit fuzzy).2)
  else ([], (ensure_initialized st).2.1, (ensure_initialized st).2.2)

/-- Model of `SQLiteSlugIndex.exists`: one indexed lookup on
`slug_lower`. -/
def exists_slug (st : IndexState) (slug : String) : Bool × IndexState × List Op :=
  if (ensure_initialized st).1 then
    ((currentRows (ensure_initialized st).2.1).any (fun r => r.slug_lower == pyLower slug),
     (ensure_initialized st).2.1, (ensure_initialized st).2.2 ++ [Op.existsQ])
  else (false, (ensure_initialized st).2.1, (ensure_initialized st).2.2)

/-- Model of `SQLiteSlugIndex.list_by_prefix` (named here after its
docstring, which lists articles): an empty pattern lists rows in table
order, otherwise rows whose `slug_lower` starts with the lowered pattern
are returned ordered by slug. -/
def list_articles (st : IndexState) (pat : String) (limit : Int) :
    List String × IndexState × List Op :=
  if (ensure_initialized st).1 then
    (if pat = "" then
      sqlLimit limit ((currentRows (ensure_initialized st).2.1).map (fun r => r.slug))
    else
      sqlLimit limit
        ((sortByLt (fun r s => charListLt r.slug.data s.slug.data)
            ((currentRows (ensure_initialized st).2.1).filter
              (fun r => likeStartsWith (pyLower pat) r.slug_lower))).map (fun r => r.slug)),
     (ensure_initialized st).2.1, (ensure_initialized st).2.2 ++ [Op.listQ])
  else ([], (ensure_initialized st).2.1, (ensure_initialized st).2.2)

/-- Model of `SQLiteSlugIndex.get_total_count`: one aggregate count. -/
def get_total_count (st : IndexState) : Nat × IndexState × List Op :=
  if (ensure_initialized st).1 then
    ((currentRows (ensure_initialized st).2.1).length,
     (ensure_initialized st).2.1, (ensure_initialized st).2.2 ++ [Op.totalQ])
  else (0, (ensure_initialized st).2.1, (ensure_initialized st).2.2)

def ftsOk : FtsOracle := fun _ => Except.ok []

def ftsFail : FtsOracle := fun _ => Except.error ()

def corpusAE : List Partition :=
  [⟨some ["Albert_Einstein", "Einstein_Field_Equations", "Albert_Camus"], true, none⟩]

def stAE : IndexState :=
  { db := DbState.table (buildRows (extract corpusAE)), links := none, initialized := true }

def stBuild : IndexState :=
  { db := DbState.absent, links := some [⟨some ["A"], true, none⟩], initialized := false }

def stEmptyIdx : IndexState :=
  { db := DbState.absent, links := none, initialized := false }

def preW : List SlugRecord := buildRows [("Old_Article", none)]

def corpusDup : List Partition :=
  [⟨some ["Albert_Einstein", "albert_einstein", "Albert_Einstein"], true,
    some ["d1", "d2", "d3"]⟩]

def storeDup : List SlugRecord := buildRows (extract corpusDup)

def p4 : Partition := ⟨some ["A", "", " B "], true, some ["d1", "d2", "d3"]⟩

/-- First-branch option choice, as SQL `find the first hit` composition. -/
def optOr {α : Type} (a b : Option α) : Option α :=
  match a with
  | some x => some x
  | none => b

/-- The data columns of a row, without the surrogate key. -/
def rowData (r : SlugRecord) : String × String × String × Option String :=
  (r.slug, r.slug_lower, r.normalized, r.lastmod)

/-- The data columns an entry produces when inserted. -/
def entryData (e : Entry) : String × String × String × Option String :=
  (e.1, pyLower e.1, underscoreToSpace (pyLower e.1), e.2)

/-- A database is usable when the `slugs` table exists and is non-empty. -/
def usableDb : DbState → Bool
  | DbState.table rows => !rows.isEmpty
  | _ => false

example : pyStrip "  a b\t" = "a b" := by decide
example : pyLower "Al_Be" = "al_be" := by decide
example : underscoreToSpace "a_b" = "a b" := by decide
example : ftsTermOf "albert ein" = "albert* ein*" := by decide
example : partitionEntries ⟨some ["A", "", " B "], true, some ["d1", "d2"]⟩ =
    [("A", some "d1"), ("B", some "d2")] := by decide
example : buildRows [("A", none), ("A", some "x")] =
    [{ id := 1, slug := "A", slug_lower := "a", normalized := "a", lastmod := none }] := by
  decide
example : build_slug_database [⟨some ["A", "A"], true, none⟩] =
    (2, [{ id := 1, slug := "A", slug_lower := "a", normalized := "a", lastmod := none }]) := by
  decide

example : (search stAE ftsOk "einstein" 10 true).1 =
    ["Einstein_Field_Equations", "Albert_Einstein"] := by decide
example : (search stAE ftsOk "Albert_Einstein" 10 true).1 = ["Albert_Einstein"] := by decide
example : (search stAE ftsOk "albert" 1 true).1 = ["Albert_Camus"] := by decide
example : (search stAE ftsOk "" 10 true).1 = [] := by decide
example : (exists_slug stAE "ALBERT_EINSTEIN").1 = true := by decide
example : (list_articles stAE "Albert" 10).1 = ["Albert_Camus", "Albert_Einstein"] := by decide
example : (get_total_count stAE).1 = 3 := by decide
example : (search stAE ftsOk "zzz" 5 true).1 = [] := by decide
example : (search stAE ftsFail "zzz" 5 true).1 = [] := by decide

lemma optOr_none {α : Type} (a : Option α) : optOr a none = a := by
  cases a <;> rfl

lemma dedupAppend_nil (acc : List String) : dedupAppend acc [] = acc := rfl

lemma dedupAppend_cons (acc : List String) (x : String) (xs : List String) :
    dedupAppend acc (x :: xs) = dedupAppend (if x ∈ acc then acc else acc ++ [x]) xs := rfl

lemma dedupAppend_append (l : List String) :
    ∀ acc, ∃ t, dedupAppend acc l = acc ++ t := by
  induction l with
  | nil => intro acc; exact ⟨[], by simp [dedupAppend_nil]⟩
  | cons x xs ih =>
      intro acc
      rw [dedupAppend_cons]
      by_cases hx : x ∈ acc
      · simpa [hx] using ih acc
      · rcases ih (acc ++ [x]) with ⟨t, ht⟩
        exact ⟨[x] ++ t, by simpa [hx, List.append_assoc] using ht⟩

lemma dedupAppend_nodup (l : List String) :
    ∀ acc, acc.Nodup → (dedupAppend acc l).Nodup := by
  induction l with
  | nil => intro acc h; exact h
  | cons x xs ih =>
      intro acc h
      rw [dedupAppend_cons]
      by_cases hx : x ∈ acc
      · simpa [hx] using ih acc h
      · have hnd : (acc ++ [x]).Nodup := by
          simp [List.nodup_append, h, hx]
        simpa [hx] using ih _ hnd

lemma dedupAppend_length_le (l : List String) :
    ∀ acc, (dedupAppend acc l).length ≤ acc.length + l.length := by
  induction l with
  | nil => intro acc; simp [dedupAppend_nil]
  | cons x xs ih =>
      intro acc
      rw [dedupAppend_cons]
      by_cases hx : x ∈ acc
      · simp only [hx, if_true, List.length_cons]
        have := ih acc
        omega
      · simp only [hx, if_false, List.length_cons]
        have h1 := ih (acc ++ [x])
        have h2 : (acc ++ [x]).length = acc.length + 1 := by simp
        omega

lemma dedupAppend_length_ge (l : List String) (acc : List String) :
    acc.length ≤ (dedupAppend acc l).length := by
  rcases dedupAppend_append l acc with ⟨t, ht⟩
  simp [ht]

lemma exactMatches_length_le (store : List SlugRecord) (ql : String) :
    (exactMatches store ql).length ≤ 1 := by
  unfold exactMatches
  exact List.length_take_le 1 _

lemma acc1_length_le (store : List SlugRecord) (ql : String) :
    (acc1 store ql).length ≤ 1 := by
  have h := dedupAppend_length_le (exactMatches store ql) []
  simp only [List.length_nil] at h
  have h2 := exactMatches_length_le store ql
  unfold acc1
  omega

lemma acc1_nodup (store : List SlugRecord) (ql : String) : (acc1 store ql).Nodup :=
  dedupAppend_nodup _ _ List.nodup_nil

lemma acc2_nodup (store : List SlugRecord) (qn ql : String) (limit : Int) :
    (acc2 store qn ql limit).Nodup :=
  dedupAppend_nodup _ _ (acc1_nodup store ql)

lemma acc3_nodup (store : List SlugRecord) (qn ql : String) (limit : Int) :
    (acc3 store qn ql limit).Nodup :=
  dedupAppend_nodup _ _ (acc2_nodup store qn ql limit)

lemma pySlice_of_nonneg {α : Type} (k : Int) (xs : List α) (h : 0 ≤ k) :
    pySlice k xs = xs.take k.toNat := by
  simp [pySlice, h]

lemma pySlice_of_neg_short {α : Type} (k : Int) (xs : List α) (hk : k < 0)
    (hx : xs.length ≤ 1) : pySlice k xs = [] := by
  have h0 : ¬ 0 ≤ k := by omega
  have hlen : xs.length - (-k).toNat = 0 := by omega
  simp [pySlice, h0, hlen]

lemma pySlice_nodup (k : Int) (xs : List String) (h : xs.Nodup) :
    (pySlice k xs).Nodup := by
  unfold pySlice
  split
  · exact h.sublist (List.take_sublist _ _)
  · exact h.sublist (List.take_sublist _ _)

lemma pySlice_length_le {α : Type} (k : Int) (xs : List α) (h : 0 ≤ k) :
    (pySlice k xs).length ≤ k.toNat := by
  rw [pySlice_of_nonneg k xs h]
  exact List.length_take_le k.toNat xs

lemma tryBuild_ops (st : IndexState) (ops : List Op) (op : Op)
    (h : op ∈ (tryBuild st ops).2.2) : op ∈ ops ∨ op = Op.build := by
  rcases hl : st.links with _ | corpus <;> simp [tryBuild, hl] at h
  · exact Or.inl h
  · rcases h with h | h
    · exact Or.inl h
    · exact Or.inr h

lemma ensure_ops (st : IndexState) (op : Op)
    (h : op ∈ (ensure_initialized st).2.2) : op = Op.countQuery ∨ op = Op.build := by
  unfold ensure_initialized at h
  by_cases hi : st.initialized
  · simp [hi] at h
  · simp only [hi, if_false, Bool.false_eq_true] at h
    rcases hdb : st.db with _ | _ | rows
    · rw [hdb] at h
      rcases tryBuild_ops st [] op h with h2 | h2
      · simp at h2
      · exact Or.inr h2
    · rw [hdb] at h
      rcases tryBuild_ops st [Op.countQuery] op h with h2 | h2
      · simp at h2; exact Or.inl h2
      · exact Or.inr h2
    · rw [hdb] at h
      by_cases hlen : 0 < rows.length
      · simp [hlen] at h
        exact Or.inl h
      · simp only [hlen, if_false] at h
        rcases tryBuild_ops st [Op.countQuery] op h with h2 | h2
        · simp at h2; exact Or.inl h2
        · exact Or.inr h2

lemma ensure_not_usable (st : IndexState) (h1 : st.initialized = false)
    (h2 : st.links = none) (h3 : usableDb st.db = false) :
    (ensure_initialized st).1 = false ∧ (ensure_initialized st).2.1 = st := by
  unfold ensure_initialized
  rcases hdb : st.db with _ | _ | rows
  · simp [h1, tryBuild, h2]
  · simp [h1, tryBuild, h2]
  · have hrows : rows.isEmpty := by
      rw [hdb] at h3
      simpa [usableDb] using h3
    have hlen : ¬ 0 < rows.length := by
      rcases rows with _ | _
      · simp
      · simp at hrows
    simp [h1, hlen, tryBuild, h2]

lemma insertEntries_append (store : List SlugRecord) (a b : List Entry) :
    insertEntries store (a ++ b) = insertEntries (insertEntries store a) b := by
  simp [insertEntries, List.foldl_append]

lemma buildLoop_fst :
    ∀ (entries batch : List Entry) (store : List SlugRecord) (total : Nat),
      (buildLoop entries batch store total).1 = insertEntries store (batch ++ entries) := by
  intro entries
  induction entries with
  | nil =>
      intro batch store total
      by_cases hb : batch.isEmpty
      · have : batch = [] := List.isEmpty_iff.mp hb
        simp [buildLoop, hb, this, insertEntries]
      · simp [buildLoop, hb]
  | cons e rest ih =>
      intro batch store total
      show (buildLoop (e :: rest) batch store total).1 = _
      simp only [buildLoop]
      split
      · rw [ih]
        rw [List.nil_append, ← insertEntries_append]
        congr 1
        simp
      · rw [ih]
        congr 1
        simp

lemma buildLoop_count :
    ∀ (entries batch : List Entry) (store : List SlugRecord) (total : Nat),
      (buildLoop entries batch store total).2.1 = total + batch.length + entries.length := by
  intro entries
  induction entries with
  | nil =>
      intro batch store total
      by_cases hb : batch.isEmpty
      · have : batch = [] := List.isEmpty_iff.mp hb
        simp [buildLoop, hb, this]
      · simp [buildLoop, hb]
  | cons e rest ih =>
      intro batch store total
      simp only [buildLoop]
      split
      · rw [ih]
        simp
        omega
      · rw [ih]
        simp
        omega

lemma buildLoop_states :
    ∀ (entries batch : List Entry) (store : List SlugRecord) (total : Nat)
      (s : List SlugRecord), s ∈ (buildLoop entries batch store total).2.2 →
      ∃ n, s = insertEntries store (batch ++ entries.take n) := by
  intro entries
  induction entries with
  | nil =>
      intro batch store total s hs
      by_cases hb : batch.isEmpty
      · have hb' : batch = [] := List.isEmpty_iff.mp hb
        simp [buildLoop, hb] at hs
        exact ⟨0, by simp [hs, hb', insertEntries]⟩
      · simp [buildLoop, hb] at hs
        exact ⟨0, by simp [hs]⟩
  | cons e rest ih =>
      intro batch store total s hs
      simp only [buildLoop] at hs
      split at hs
      · simp only [List.mem_cons] at hs
        rcases hs with hs | hs
        · exact ⟨1, by simp [hs]⟩
        · rcases ih [] (insertEntries store (batch ++ [e])) (total + (batch ++ [e]).length) s hs
            with ⟨m, hm⟩
          refine ⟨m + 1, ?_⟩
          rw [hm, List.nil_append, ← insertEntries_append]
          congr 1
          simp [List.append_assoc]
      · rcases ih (batch ++ [e]) store total s hs with ⟨m, hm⟩
        refine ⟨m + 1, ?_⟩
        rw [hm]
        congr 1
        simp [List.append_assoc]

lemma find?_append_opt {α : Type} (p : α → Bool) (l₁ l₂ : List α) :
    (l₁ ++ l₂).find? p = optOr (l₁.find? p) (l₂.find? p) := by
  induction l₁ with
  | nil => simp [optOr]
  | cons a l ih =>
      by_cases ha : p a
      · simp [List.find?_cons, ha, optOr]
      · simp [List.find?_cons, ha, ih]

lemma find?_insertEntries (es : List Entry) :
    ∀ (store : List SlugRecord) (s : String),
      ((insertEntries store es).find? (fun r => r.slug == s)).map rowData =
        optOr ((store.find? (fun r => r.slug == s)).map rowData)
              ((es.find? (fun e => e.1 == s)).map entryData) := by
  induction es with
  | nil => intro store s; simp [insertEntries, optOr_none]
  | cons e rest ih =>
      intro store s
      have hstep : insertEntries store (e :: rest) = insertEntries (insertRow store e) rest := rfl
      rw [hstep, ih]
      by_cases hmem : store.any (fun r => r.slug == e.1)
      · have hrow : insertRow store e = store := by simp [insertRow, hmem]
        rw [hrow]
        by_cases hes : e.1 = s
        · have hex : ∃ r ∈ store, r.slug = s := by
            rw [List.any_eq_true] at hmem
            rcases hmem with ⟨r, hr, hr2⟩
            exact ⟨r, hr, by simpa [hes] using hr2⟩
          have hfind : ∃ r, store.find? (fun r => r.slug == s) = some r := by
            rw [← Option.isSome_iff_exists, List.find?_isSome]
            rcases hex with ⟨r, hr, hr2⟩
            exact ⟨r, hr, by simp [hr2]⟩
          rcases hfind with ⟨r, hr⟩
          simp [hr, optOr, List.find?_cons, hes]
        · have : (fun x : Entry => x.1 == s) e = false := by simpa using hes
          simp [List.find?_cons, this]
      · have hrow : insertRow store e = store ++ [rowOf store.length e] := by
          simp [insertRow, hmem]
        rw [hrow, find?_append_opt]
        have hmem' : ∀ r ∈ store, ¬ r.slug = e.1 := by
          intro r hr hcontra
          exact hmem (List.any_eq_true.mpr ⟨r, hr, by simp [hcontra]⟩)
        by_cases hes : e.1 = s
        · have hsn : store.find? (fun r => r.slug == s) = none := by
            rw [List.find?_eq_none]
            intro r hr
            simp only [beq_iff_eq]
            rw [← hes]
            exact hmem' r hr
          have hpr : (fun r : SlugRecord => r.slug == s) (rowOf store.length e) = true := by
            simp [rowOf, hes]
          simp [hsn, List.find?_cons, hpr, optOr, hes, rowData, rowOf, entryData]
        · have hpr : (fun r : SlugRecord => r.slug == s) (rowOf store.length e) = false := by
            simp [rowOf, hes]
          have hpe : (fun x : Entry => x.1 == s) e = false := by simpa using hes
          simp [List.find?_cons, hpr, hpe, optOr_none]

lemma insertEntries_slug_nodup (es : List Entry) :
    ∀ store : List SlugRecord, (store.map (fun r => r.slug)).Nodup →
      ((insertEntries store es).map (fun r => r.slug)).Nodup := by
  induction es with
  | nil => intro store h; exact h
  | cons e rest ih =>
      intro store h
      have hstep : insertEntries store (e :: rest) = insertEntries (insertRow store e) rest := rfl
      rw [hstep]
      apply ih
      by_cases hmem : store.any (fun r => r.slug == e.1)
      · simpa [insertRow, hmem] using h
      · have hrow : insertRow store e = store ++ [rowOf store.length e] := by
          simp [insertRow, hmem]
        rw [hrow]
        have hnot : e.1 ∉ store.map (fun r => r.slug) := by
          intro hmm
          rcases List.mem_map.mp hmm with ⟨r, hr, hr2⟩
          exact hmem (List.any_eq_true.mpr ⟨r, hr, by simp [hr2]⟩)
        simp [List.nodup_append, h, rowOf, hnot]

lemma insertEntries_length_of_nodup (es : List Entry) :
    ∀ store : List SlugRecord,
      ((store.map (fun r => r.slug)) ++ es.map (fun e => e.1)).Nodup →
      (insertEntries store es).length = store.length + es.length := by
  induction es with
  | nil => intro store _; simp [insertEntries]
  | cons e rest ih =>
      intro store h
      have hstep : insertEntries store (e :: rest) = insertEntries (insertRow store e) rest := rfl
      have hnot : e.1 ∉ store.map (fun r => r.slug) := by
        intro hmm
        rcases (List.nodup_append.mp h) with ⟨_, _, hdisj⟩
        exact hdisj hmm (by simp)
      have hmem : ¬ store.any (fun r => r.slug == e.1) := by
        rw [List.any_eq_true]
        rintro ⟨r, hr, hr2⟩
        exact hnot (List.mem_map.mpr ⟨r, hr, by simpa using hr2⟩)
      have hrow : insertRow store e = store ++ [rowOf store.length e] := by
        simp [insertRow, hmem]
      rw [hstep, hrow]
      have hh : (((store ++ [rowOf store.length e]).map (fun r => r.slug)) ++
          rest.map (fun e => e.1)).Nodup := by
        have : ((store ++ [rowOf store.length e]).map (fun r => r.slug)) ++
            rest.map (fun e => e.1) =
            (store.map (fun r => r.slug)) ++ ((e :: rest).map (fun e => e.1)) := by
          simp [rowOf]
        rw [this]
        exact h
      rw [ih _ hh]
      simp
      omega

lemma insertEntries_length_le (es : List Entry) :
    ∀ store : List SlugRecord,
      (insertEntries store es).length ≤ store.length + es.length := by
  induction es with
  | nil => intro store; simp [insertEntries]
  | cons e rest ih =>
      intro store
      have hstep : insertEntries store (e :: rest) = insertEntries (insertRow store e) rest := rfl
      rw [hstep]
      have h1 := ih (insertRow store e)
      have h2 : (insertRow store e).length ≤ store.length + 1 := by
        unfold insertRow
        split
        · omega
        · simp
      simp only [List.length_cons]
      omega

lemma insertEntries_length_lt_of_dup (es : List Entry) :
    ∀ store : List SlugRecord, (store.map (fun r => r.slug)).Nodup →
      ¬ ((store.map (fun r => r.slug)) ++ es.map (fun e => e.1)).Nodup →
      (insertEntries store es).length < store.length + es.length := by
  induction es with
  | nil =>
      intro store hstore hdup
      exact absurd (by simpa using hstore) hdup
  | cons e rest ih =>
      intro store hstore hdup
      have hstep : insertEntries store (e :: rest) = insertEntries (insertRow store e) rest := rfl
      rw [hstep]
      by_cases hmem : store.any (fun r => r.slug == e.1)
      · have hrow : insertRow store e = store := by simp [insertRow, hmem]
        rw [hrow]
        have h1 := insertEntries_length_le rest store
        simp only [List.length_cons]
        omega
      · have hrow : insertRow store e = store ++ [rowOf store.length e] := by
          simp [insertRow, hmem]
        have hnot : e.1 ∉ store.map (fun r => r.slug) := by
          intro hmm
          rcases List.mem_map.mp hmm with ⟨r, hr, hr2⟩
          exact hmem (List.any_eq_true.mpr ⟨r, hr, by simp [hr2]⟩)
        have hstore' : ((insertRow store e).map (fun r => r.slug)).Nodup := by
          rw [hrow]
          simp [List.nodup_append, hstore, rowOf, hnot]
        have hdup' : ¬ (((insertRow store e).map (fun r => r.slug)) ++
            rest.map (fun e => e.1)).Nodup := by
          intro hnd
          apply hdup
          have heq : ((insertRow store e).map (fun r => r.slug)) ++
              rest.map (fun e => e.1) =
              (store.map (fun r => r.slug)) ++ ((e :: rest).map (fun e => e.1)) := by
            rw [hrow]
            simp [rowOf]
          rw [heq] at hnd
          exact hnd
        have h1 := ih (insertRow store e) hstore' hdup'
        have h2 : (insertRow store e).length = store.length + 1 := by
          rw [hrow]
          simp
        simp only [List.length_cons]
        omega

lemma searchCore_blank (store : List SlugRecord) (fts : FtsOracle) (q : String)
    (limit : Int) (fuzzy : Bool) (h : q = "" ∨ pyStrip q = "") :
    searchCore store fts q limit fuzzy = ([], []) := by
  unfold searchCore
  rw [if_pos h]

lemma searchCore_eq_of_nonpos (store : List SlugRecord) (fts : FtsOracle) (q : String)
    (fuzzy : Bool) (limit : Int) (h : limit ≤ 0) :
    (searchCore store fts q limit fuzzy).1 = [] := by
  by_cases hq : q = "" ∨ pyStrip q = ""
  · rw [searchCore_blank store fts q limit fuzzy hq]
  · have hgate : limit ≤ ((acc1 store (lowerTrim q)).length : Int) := by
      have h0 : (0 : Int) ≤ ((acc1 store (lowerTrim q)).length : Int) := Int.ofNat_nonneg _
      omega
    unfold searchCore
    rw [if_neg hq, if_pos hgate]
    show pySlice limit (acc1 store (lowerTrim q)) = []
    rcases lt_or_eq_of_le h with hlt | heq
    · exact pySlice_of_neg_short limit _ hlt (acc1_length_le store (lowerTrim q))
    · rw [heq]
      simp [pySlice]

lemma searchCore_length_nodup (store : List SlugRecord) (fts : FtsOracle) (q : String)
    (limit : Int) (fuzzy : Bool) :
    (searchCore store fts q limit fuzzy).1.length ≤ limit.toNat ∧
      (searchCore store fts q limit fuzzy).1.Nodup := by
  by_cases hq : q = "" ∨ pyStrip q = ""
  · rw [searchCore_blank store fts q limit fuzzy hq]
    simp
  · unfold searchCore
    rw [if_neg hq]
    by_cases h1 : limit ≤ ((acc1 store (lowerTrim q)).length : Int)
    · rw [if_pos h1]
      by_cases hneg : limit < 0
      · have he : pySlice limit (acc1 store (lowerTrim q)) = [] :=
          pySlice_of_neg_short _ _ hneg (acc1_length_le _ _)
        refine ⟨?_, ?_⟩
        · show (pySlice limit (acc1 store (lowerTrim q))).length ≤ limit.toNat
          rw [he]
          simp
        · show (pySlice limit (acc1 store (lowerTrim q))).Nodup
          rw [he]
          exact List.nodup_nil
      · have h0 : (0 : Int) ≤ limit := by omega
        exact ⟨pySlice_length_le limit _ h0, pySlice_nodup _ _ (acc1_nodup _ _)⟩
    · have h0 : (0 : Int) ≤ limit := by
        have := Int.ofNat_nonneg (acc1 store (lowerTrim q)).length
        omega
      rw [if_neg h1]
      by_cases h2 : limit ≤ ((acc2 store (normalizeQuery q) (lowerTrim q) limit).length : Int)
      · rw [if_pos h2]
        exact ⟨pySlice_length_le limit _ h0, pySlice_nodup _ _ (acc2_nodup _ _ _ _)⟩
      · rw [if_neg h2]
        by_cases h3 : limit ≤ ((acc3 store (normalizeQuery q) (lowerTrim q) limit).length : Int)
            ∨ fuzzy = false
        · rw [if_pos h3]
          exact ⟨pySlice_length_le limit _ h0, pySlice_nodup _ _ (acc3_nodup _ _ _ _)⟩
        · rw [if_neg h3]
          by_cases h4 : ftsTermOf (normalizeQuery q) = ""
          · rw [if_pos h4]
            exact ⟨pySlice_length_le limit _ h0, pySlice_nodup _ _ (acc3_nodup _ _ _ _)⟩
          · rw [if_neg h4]
            rcases hfts : fts (ftsTermOf (normalizeQuery q)) with e | rows
            · exact ⟨pySlice_length_le limit _ h0, pySlice_nodup _ _ (acc3_nodup _ _ _ _)⟩
            · exact ⟨pySlice_length_le limit _ h0,
                pySlice_nodup _ _ (dedupAppend_nodup _ _ (acc3_nodup _ _ _ _))⟩

lemma searchCore_false_no_fts (store : List SlugRecord) (fts : FtsOracle) (q : String)
    (limit : Int) : Op.ftsQ ∉ (searchCore store fts q limit false).2 := by
  by_cases hq : q = "" ∨ pyStrip q = ""
  · rw [searchCore_blank store fts q limit false hq]
    simp
  · unfold searchCore
    rw [if_neg hq]
    by_cases h1 : limit ≤ ((acc1 store (lowerTrim q)).length : Int)
    · rw [if_pos h1]
      show Op.ftsQ ∉ [Op.exactQ]
      decide
    · rw [if_neg h1]
      by_cases h2 : limit ≤ ((acc2 store (normalizeQuery q) (lowerTrim q) limit).length : Int)
      · rw [if_pos h2]
        show Op.ftsQ ∉ [Op.exactQ, Op.prefixQ]
        decide
      · rw [if_neg h2]
        have h3 : limit ≤ ((acc3 store (normalizeQuery q) (lowerTrim q) limit).length : Int)
            ∨ false = false := Or.inr rfl
        rw [if_pos h3]
        show Op.ftsQ ∉ [Op.exactQ, Op.prefixQ, Op.containsQ]
        decide

lemma searchCore_mono (store : List SlugRecord) (fts : FtsOracle) (q : String)
    (limit : Int) :
    (searchCore store fts q limit false).1.length ≤
      (searchCore store fts q limit true).1.length := by
  by_cases hq : q = "" ∨ pyStrip q = ""
  · rw [searchCore_blank store fts q limit false hq, searchCore_blank store fts q limit true hq]
  · unfold searchCore
    rw [if_neg hq, if_neg hq]
    by_cases h1 : limit ≤ ((acc1 store (lowerTrim q)).length : Int)
    · rw [if_pos h1, if_pos h1]
    · rw [if_neg h1, if_neg h1]
      by_cases h2 : limit ≤ ((acc2 store (normalizeQuery q) (lowerTrim q) limit).length : Int)
      · rw [if_pos h2, if_pos h2]
      · rw [if_neg h2, if_neg h2]
        by_cases h3 : limit ≤ ((acc3 store (normalizeQuery q) (lowerTrim q) limit).length : Int)
        · have hf : limit ≤ ((acc3 store (normalizeQuery q) (lowerTrim q) limit).length : Int)
              ∨ false = false := Or.inl h3
          have ht : limit ≤ ((acc3 store (normalizeQuery q) (lowerTrim q) limit).length : Int)
              ∨ true = false := Or.inl h3
          rw [if_pos hf, if_pos ht]
        · have hf : limit ≤ ((acc3 store (normalizeQuery q) (lowerTrim q) limit).length : Int)
              ∨ false = false := Or.inr rfl
          have ht : ¬ (limit ≤ ((acc3 store (normalizeQuery q) (lowerTrim q) limit).length : Int)
              ∨ true = false) := by
            rintro (h | h)
            · exact h3 h
            · exact absurd h (by decide)
          rw [if_pos hf, if_neg ht]
          have h0 : (0 : Int) ≤ limit := by
            have := Int.ofNat_nonneg (acc3 store (normalizeQuery q) (lowerTrim q) limit).length
            omega
          by_cases h4 : ftsTermOf (normalizeQuery q) = ""
          · rw [if_pos h4]
          · rw [if_neg h4]
            rcases hfts : fts (ftsTermOf (normalizeQuery q)) with e | rows
            · exact le_refl _
            · show (pySlice limit (acc3 store (normalizeQuery q) (lowerTrim q) limit)).length ≤
                (pySlice limit
                  (dedupAppend (acc3 store (normalizeQuery q) (lowerTrim q) limit)
                    (sqlLimit
                      (limit -
                        ((acc3 store (normalizeQuery q) (lowerTrim q) limit).length : Int))
                      rows))).length
              rcases dedupAppend_append
                  (sqlLimit
                    (limit - ((acc3 store (normalizeQuery q) (lowerTrim q) limit).length : Int))
                    rows)
                  (acc3 store (normalizeQuery q) (lowerTrim q) limit) with ⟨t, htt⟩
              rw [htt, pySlice_of_nonneg _ _ h0, pySlice_of_nonneg _ _ h0,
                List.length_take, List.length_take]
              have hlen : (acc3 store (normalizeQuery q) (lowerTrim q) limit).length ≤
                  (acc3 store (normalizeQuery q) (lowerTrim q) limit ++ t).length := by
                simp
              exact min_le_min (le_refl _) hlen

lemma searchCore_ftserr (store : List SlugRecord) (fts : FtsOracle) (q : String)
    (limit : Int) (h : fts (ftsTermOf (normalizeQuery q)) = Except.error ()) :
    (searchCore store fts q limit true).1 = (searchCore store fts q limit false).1 := by
  by_cases hq : q = "" ∨ pyStrip q = ""
  · rw [searchCore_blank store fts q limit false hq, searchCore_blank store fts q limit true hq]
  · unfold searchCore
    rw [if_neg hq, if_neg hq]
    by_cases h1 : limit ≤ ((acc1 store (lowerTrim q)).length : Int)
    · rw [if_pos h1, if_pos h1]
    · rw [if_neg h1, if_neg h1]
      by_cases h2 : limit ≤ ((acc2 store (normalizeQuery q) (lowerTrim q) limit).length : Int)
      · rw [if_pos h2, if_pos h2]
      · rw [if_neg h2, if_neg h2]
        by_cases h3 : limit ≤ ((acc3 store (normalizeQuery q) (lowerTrim q) limit).length : Int)
        · have hf : limit ≤ ((acc3 store (normalizeQuery q) (lowerTrim q) limit).length : Int)
              ∨ false = false := Or.inl h3
          have ht : limit ≤ ((acc3 store (normalizeQuery q) (lowerTrim q) limit).length : Int)
              ∨ true = false := Or.inl h3
          rw [if_pos hf, if_pos ht]
        · have hf : limit ≤ ((acc3 store (normalizeQuery q) (lowerTrim q) limit).length : Int)
              ∨ false = false := Or.inr rfl
          have ht : ¬ (limit ≤ ((acc3 store (normalizeQuery q) (lowerTrim q) limit).length : Int)
              ∨ true = false) := by
            rintro (hx | hx)
            · exact h3 hx
            · exact absurd hx (by decide)
          rw [if_pos hf, if_neg ht]
          by_cases h4 : ftsTermOf (normalizeQuery q) = ""
          · rw [if_pos h4]
          · rw [if_neg h4, h]

lemma pairEntries_length (dates : List String) :
    ∀ (names : List String) (i : Nat),
      (pairEntries dates i names).length = names.length := by
  intro names
  induction names with
  | nil => intro i; rfl
  | cons s rest ih => intro i; simp [pairEntries, ih]

lemma pairEntries_get? (dates : List String) :
    ∀ (names : List String) (i j : Nat),
      (pairEntries dates i names).get? j =
        (names.get? j).map (fun s => (s, dates.get? (i + j))) := by
  intro names
  induction names with
  | nil => intro i j; simp [pairEntries]
  | cons s rest ih =>
      intro i j
      cases j with
      | zero => simp [pairEntries]
      | succ k =>
          show (pairEntries dates (i + 1) rest).get? k =
            (rest.get? k).map (fun s => (s, dates.get? (i + (k + 1))))
          rw [ih (i + 1) k]
          have hidx : i + 1 + k = i + (k + 1) := by omega
          rw [hidx]

lemma datesLines_get? (p : Partition) (i : Nat) :
    (datesLines p).get? i =
      match p.datesFile with
      | some dl => (dl.get? i).map pyStrip
      | none => none := by
  rcases hd : p.datesFile with _ | dl
  · simp [datesLines, hd]
  · simp [datesLines, hd]

lemma get_total_count_table (rows : List SlugRecord) :
    (get_total_count { db := DbState.table rows, links := none, initialized := true }).1 =
      rows.length := by
  simp [get_total_count, ensure_initialized, currentRows]

/-- Claim C1 (amended): every committed dataset state a reader can observe
while the index builder rebuilds the store is either the pre-build dataset
or the dataset built from a prefix of the extraction stream (the fully
rebuilt dataset being the full prefix); the intermediate empty state after
the destructive schema recreation and each per-batch commit state are among
the observable states, so the rebuild is not one atomic replace-then-commit
unit and mid-build states can be seen. -/
theorem build_commits_are_snapshots (pre : List SlugRecord) (corpus : List Partition)
    (s : List SlugRecord) (hs : s ∈ buildCommits pre corpus) :
    s = pre ∨ ∃ n, s = buildRows ((extract corpus).take n) := by
  rcases List.mem_cons.mp hs with h | h
  · exact Or.inl h
  · rcases List.mem_cons.mp h with h2 | h2
    · refine Or.inr ⟨0, ?_⟩
      rw [h2]
      rfl
    · rcases buildLoop_states (extract corpus) [] [] 0 s h2 with ⟨n, hn⟩
      refine Or.inr ⟨n, ?_⟩
      rw [hn]
      rfl

/-- Claim C1, counterexample: with a non-empty pre-build dataset and a
one-entry corpus, the empty dataset committed right after the destructive
schema recreation is observable mid-build and is neither the pre-build nor
the fully-rebuilt dataset, so readers can see a half-populated store. -/
theorem mid_build_commit_visible :
    ¬ (∀ s ∈ buildCommits preW corpusAE, s = preW ∨ s = buildRows (extract corpusAE)) := by
  decide

/-- Claim C1, witness: the empty mid-build commit state of the concrete
build is covered by the amended statement. -/
theorem build_commits_are_snapshots_witness :
    ([] ∈ buildCommits preW corpusAE) ∧
      (([] : List SlugRecord) = preW ∨
        ∃ n, ([] : List SlugRecord) = buildRows ((extract corpusAE).take n)) :=
  ⟨by decide, build_commits_are_snapshots preW corpusAE [] (by decide)⟩

/-- Claim C2, counterexample: on a corpus whose identifier file repeats the
slug Albert_Einstein, the build returns 3 while the freshly built store
holds 2 rows, so the returned count differs from the total count. -/
theorem build_count_ne_total_count :
    (build_slug_database corpusDup).1 ≠
      (get_total_count
        { db := DbState.table (build_slug_database corpusDup).2, links := none,
          initialized := true }).1 := by
  decide

/-- Claim C2 (amended): the count returned by the build equals the number
of extracted (slug, lastmod) pairs, duplicates included; it equals the
total count of the freshly built store exactly when the extracted slugs are
pairwise distinct - with a duplicate slug the store keeps strictly fewer
rows than the count reports. -/
theorem build_count_characterization (corpus : List Partition) :
    (build_slug_database corpus).1 = (extract corpus).length ∧
    ((build_slug_database corpus).1 =
        (get_total_count
          { db := DbState.table (build_slug_database corpus).2, links := none,
            initialized := true }).1 ↔
      ((extract corpus).map (fun e => e.1)).Nodup) := by
  have hcount : (build_slug_database corpus).1 = (extract corpus).length := by
    show (build_index corpus).2.1 = _
    unfold build_index
    rw [buildLoop_count]
    simp
  have hrows : (build_slug_database corpus).2 = insertEntries [] (extract corpus) := by
    show (build_index corpus).1 = _
    unfold build_index
    rw [buildLoop_fst, List.nil_append]
  refine ⟨hcount, ?_⟩
  rw [get_total_count_table, hcount, hrows]
  constructor
  · intro heq
    by_contra hnd
    have hlt := insertEntries_length_lt_of_dup (extract corpus) [] (by simp)
      (by simpa using hnd)
    simp only [List.length_nil] at hlt
    omega
  · intro h
    rw [insertEntries_length_of_nodup _ [] (by simpa using h)]
    simp

/-- Claim C2, witness: on the duplicate-free three-slug corpus the build
returns 3 and the freshly built store reports a total count of 3; on the
corpus repeating a slug, the count and the total count differ, through
the reverse direction of the equivalence. -/
theorem build_count_characterization_witness :
    ((extract corpusAE).map (fun e => e.1)).Nodup ∧
    (build_slug_database corpusAE).1 = 3 ∧
    (build_slug_database corpusAE).1 =
      (get_total_count
        { db := DbState.table (build_slug_database corpusAE).2, links := none,
          initialized := true }).1 ∧
    ¬ ((extract corpusDup).map (fun e => e.1)).Nodup ∧
    (build_slug_database corpusDup).1 ≠
      (get_total_count
        { db := DbState.table (build_slug_database corpusDup).2, links := none,
          initialized := true }).1 :=
  ⟨by decide, ((build_count_characterization corpusAE).1).trans (by decide),
    (build_count_characterization corpusAE).2.mpr (by decide),
    by decide,
    fun h => absurd ((build_count_characterization corpusDup).2.mp h) (by decide)⟩

/-- Claim C3, counterexample: on an uninitialized index whose links
directory exists, the empty query returns the empty list but the call first
runs the initialization check, which performs a build, so it is false that
the empty query performs no storage access. -/
theorem blank_query_still_initializes :
    ¬ ((search stBuild ftsOk "" 10 true).1 = [] ∧
        (search stBuild ftsOk "" 10 true).2.2 = []) := by
  decide

/-- Claim C3 (amended): an empty or whitespace-only query returns the empty
list and executes no match strategy, but only after the initialization
check has run; the storage operations of the call are exactly those of the
initialization check, which may include the count probe and a build. -/
theorem blank_query_empty_after_init_check (st : IndexState) (fts : FtsOracle)
    (q : String) (limit : Int) (fuzzy : Bool) (h : q = "" ∨ pyStrip q = "") :
    (search st fts q limit fuzzy).1 = [] ∧
      (search st fts q limit fuzzy).2.2 = (ensure_initialized st).2.2 := by
  unfold search
  by_cases hok : (ensure_initialized st).1 = true
  · rw [if_pos hok, searchCore_blank _ fts q limit fuzzy h]
    exact ⟨rfl, by simp⟩
  · rw [if_neg hok]
    exact ⟨rfl, rfl⟩

/-- Claim C3, witness: the amended statement at the concrete state whose
initialization performs a build. -/
theorem blank_query_empty_after_init_check_witness :
    (("" : String) = "" ∨ pyStrip "" = "") ∧
    (search stBuild ftsOk "" 10 true).1 = [] ∧
    (search stBuild ftsOk "" 10 true).2.2 = (ensure_initialized stBuild).2.2 :=
  ⟨Or.inl rfl,
    (blank_query_empty_after_init_check stBuild ftsOk "" 10 true (Or.inl rfl)).1,
    (blank_query_empty_after_init_check stBuild ftsOk "" 10 true (Or.inl rfl)).2⟩

/-- Claim C4: for a partition whose identifier file is readable, the number
of entries equals the number of non-blank identifier lines, and the i-th
entry is the i-th non-blank identifier line (stripped) paired with line i
of the timestamp file when that file is present and long enough, and with
an absent lastmod otherwise; blank identifier lines yield no entry. -/
theorem partition_line_pairing (p : Partition) (lines : List String) (i : Nat)
    (h1 : p.namesFile = some lines) (h2 : p.readOk = true) :
    (partitionEntries p).length =
      ((lines.map pyStrip).filter (fun l => l ≠ "")).length ∧
    (partitionEntries p).get? i =
      (((lines.map pyStrip).filter (fun l => l ≠ "")).get? i).map
        (fun s =>
          (s, match p.datesFile with
              | some dl => (dl.get? i).map pyStrip
              | none => none)) := by
  have hpe : partitionEntries p =
      pairEntries (datesLines p) 0 ((lines.map pyStrip).filter (fun l => l ≠ "")) := by
    simp [partitionEntries, h1, h2]
  constructor
  · rw [hpe]
    exact pairEntries_length _ _ 0
  · rw [hpe, pairEntries_get? (datesLines p) _ 0 i]
    have h0 : 0 + i = i := Nat.zero_add i
    rw [h0, datesLines_get?]

/-- Claim C4, witness: on a partition with a blank middle line, the second
entry pairs the second non-blank line with the second timestamp line. -/
theorem partition_line_pairing_witness :
    p4.namesFile = some ["A", "", " B "] ∧ p4.readOk = true ∧
    (partitionEntries p4).length = 2 ∧
    (partitionEntries p4).get? 1 = some ("B", some "d2") :=
  ⟨rfl, rfl,
    ((partition_line_pairing p4 ["A", "", " B "] 1 rfl rfl).1).trans (by decide),
    ((partition_line_pairing p4 ["A", "", " B "] 1 rfl rfl).2).trans (by decide)⟩

/-- Claim C5, counterexample: at the negative limit -1 the result is the
empty list, whose length 0 is not at most -1, so the claim fails when
quantified over every integer limit. -/
theorem search_length_negative_limit :
    ¬ (((search stAE ftsOk "albert" (-1) true).1.length : Int) ≤ -1) := by
  decide

/-- Claim C5 (amended): for every query, limit and fuzzy flag the result of
search has length at most max(limit, 0) - so at most limit whenever the
limit is nonnegative - and contains no duplicate slugs even when several
strategies produce the same slug. -/
theorem search_length_bound_nodup (st : IndexState) (fts : FtsOracle) (q : String)
    (limit : Int) (fuzzy : Bool) :
    (search st fts q limit fuzzy).1.length ≤ limit.toNat ∧
      (search st fts q limit fuzzy).1.Nodup := by
  unfold search
  by_cases hok : (ensure_initialized st).1 = true
  · rw [if_pos hok]
    exact searchCore_length_nodup _ fts q limit fuzzy
  · rw [if_neg hok]
    simp

/-- Claim C6: over the same store state, disabling fuzzy matching never
yields more results than enabling it, and with fuzzy matching disabled the
full-text strategy is never executed. -/
theorem search_fuzzy_monotone_and_skip (st : IndexState) (fts : FtsOracle)
    (q : String) (limit : Int) :
    (search st fts q limit false).1.length ≤ (search st fts q limit true).1.length ∧
      Op.ftsQ ∉ (search st fts q limit false).2.2 := by
  unfold search
  by_cases hok : (ensure_initialized st).1 = true
  · rw [if_pos hok, if_pos hok]
    constructor
    · exact searchCore_mono _ fts q limit
    · intro hmem
      rcases List.mem_append.mp hmem with h | h
      · rcases ensure_ops st Op.ftsQ h with h2 | h2 <;> exact absurd h2 (by decide)
      · exact searchCore_false_no_fts _ fts q limit h
  · rw [if_neg hok, if_neg hok]
    constructor
    · exact le_refl _
    · intro hmem
      rcases ensure_ops st Op.ftsQ hmem with h2 | h2 <;> exact absurd h2 (by decide)

/-- Claim C7: when the full-text engine rejects the query term built from
the normalized query, the failure of strategy 4 alone is caught inside
search and the call returns exactly what strategies 1-3 accumulated, which
is the same list the fuzzy-disabled call returns. -/
theorem fts_error_caught (st : IndexState) (fts : FtsOracle) (q : String) (limit : Int)
    (h : fts (ftsTermOf (normalizeQuery q)) = Except.error ()) :
    (search st fts q limit true).1 = (search st fts q limit false).1 := by
  unfold search
  by_cases hok : (ensure_initialized st).1 = true
  · rw [if_pos hok, if_pos hok]
    exact searchCore_ftserr _ fts q limit h
  · rw [if_neg hok, if_neg hok]

/-- Claim C7, witness: with an always-failing full-text oracle the fuzzy
search for einstein still returns the two substring matches accumulated by
strategies 1-3. -/
theorem fts_error_caught_witness :
    ftsFail (ftsTermOf (normalizeQuery "einstein")) = Except.error () ∧
    (search stAE ftsFail "einstein" 10 true).1 =
      (search stAE ftsFail "einstein" 10 false).1 ∧
    (search stAE ftsFail "einstein" 10 false).1 =
      ["Einstein_Field_Equations", "Albert_Einstein"] :=
  ⟨rfl, fts_error_caught stAE ftsFail "einstein" 10 rfl, by decide⟩

/-- Claim C8: when the index is uninitialized, no usable store exists and
no source root is available, every query-engine operation returns its
empty or zero default instead of raising, and the index remains
uninitialized afterwards. -/
theorem uninitialized_defaults (st : IndexState) (fts : FtsOracle)
    (q slug pat : String) (limit lim2 : Int) (fuzzy : Bool)
    (h1 : st.initialized = false) (h2 : st.links = none)
    (h3 : usableDb st.db = false) :
    (search st fts q limit fuzzy).1 = [] ∧
    (exists_slug st slug).1 = false ∧
    (list_articles st pat lim2).1 = [] ∧
    (get_total_count st).1 = 0 ∧
    (search st fts q limit fuzzy).2.1.initialized = false ∧
    (exists_slug st slug).2.1.initialized = false ∧
    (list_articles st pat lim2).2.1.initialized = false ∧
    (get_total_count st).2.1.initialized = false := by
  rcases ensure_not_usable st h1 h2 h3 with ⟨hok, hst⟩
  have hok' : ¬ (ensure_initialized st).1 = true := by
    rw [hok]
    decide
  unfold search exists_slug list_articles get_total_count
  rw [if_neg hok', if_neg hok', if_neg hok', if_neg hok']
  refine ⟨rfl, rfl, rfl, rfl, ?_, ?_, ?_, ?_⟩ <;> rw [hst] <;> exact h1

/-- Claim C8, witness: the concrete state with no database file and no
links directory returns all four defaults. -/
theorem uninitialized_defaults_witness :
    stEmptyIdx.initialized = false ∧ stEmptyIdx.links = none ∧
    usableDb stEmptyIdx.db = false ∧
    (search stEmptyIdx ftsOk "anything" 10 true).1 = [] ∧
    (exists_slug stEmptyIdx "A").1 = false ∧
    (list_articles stEmptyIdx "A" 10).1 = [] ∧
    (get_total_count stEmptyIdx).1 = 0 :=
  ⟨rfl, rfl, rfl,
    (uninitialized_defaults stEmptyIdx ftsOk "anything" "A" "A" 10 10 true rfl rfl rfl).1,
    (uninitialized_defaults stEmptyIdx ftsOk "anything" "A" "A" 10 10 true rfl rfl rfl).2.1,
    (uninitialized_defaults stEmptyIdx ftsOk "anything" "A" "A" 10 10 true rfl rfl rfl).2.2.1,
    (uninitialized_defaults stEmptyIdx ftsOk "anything" "A" "A" 10 10 true rfl rfl rfl).2.2.2.1⟩

/-- Claim C9: after any build the slug column is duplicate-free, inserting
an entry whose slug is already present is a no-op, and the row retained for
any slug carries the data of the first occurrence of that slug in
extraction order. -/
theorem slug_unique_first_write_wins (corpus : List Partition)
    (store : List SlugRecord) (e : Entry) (s : String)
    (h : ∃ r ∈ store, r.slug = e.1) :
    ((buildRows (extract corpus)).map (fun r => r.slug)).Nodup ∧
    insertRow store e = store ∧
    ((buildRows (extract corpus)).find? (fun r => r.slug == s)).map rowData =
      ((extract corpus).find? (fun e2 => e2.1 == s)).map entryData := by
  refine ⟨?_, ?_, ?_⟩
  · exact insertEntries_slug_nodup _ [] (by simp)
  · rcases h with ⟨r, hr, hr2⟩
    have hany : store.any (fun r => r.slug == e.1) :=
      List.any_eq_true.mpr ⟨r, hr, by simp [hr2]⟩
    simp [insertRow, hany]
  · show ((insertEntries [] (extract corpus)).find? (fun r => r.slug == s)).map rowData = _
    rw [find?_insertEntries (extract corpus) [] s]
    simp [optOr]

/-- Claim C9, witness: on a corpus repeating Albert_Einstein with distinct
timestamps, the retained row keeps the first timestamp, a duplicate insert
is a no-op, and the slug column is duplicate-free. -/
theorem slug_unique_first_write_wins_witness :
    (∃ r ∈ storeDup, r.slug = "Albert_Einstein") ∧
    ((buildRows (extract corpusDup)).map (fun r => r.slug)).Nodup ∧
    insertRow storeDup ("Albert_Einstein", some "zzz") = storeDup ∧
    ((buildRows (extract corpusDup)).find?
        (fun r => r.slug == "Albert_Einstein")).map rowData =
      some ("Albert_Einstein", "albert_einstein", "albert einstein", some "d1") :=
  ⟨by decide,
    (slug_unique_first_write_wins corpusDup storeDup ("Albert_Einstein", some "zzz")
      "Albert_Einstein" (by decide)).1,
    (slug_unique_first_write_wins corpusDup storeDup ("Albert_Einstein", some "zzz")
      "Albert_Einstein" (by decide)).2.1,
    ((slug_unique_first_write_wins corpusDup storeDup ("Albert_Einstein", some "zzz")
      "Albert_Einstein" (by decide)).2.2).trans (by decide)⟩

/-- Claim C10: for every store state, query and fuzzy flag, a limit less
than or equal to zero makes search return the empty list: the short-circuit
after the exact strategy fires because the accumulated count is already at
least the limit, and slicing to a non-positive limit yields the empty
list. -/
theorem search_nonpos_limit_empty (st : IndexState) (fts : FtsOracle) (q : String)
    (fuzzy : Bool) (limit : Int) (h : limit ≤ 0) :
    (search st fts q limit fuzzy).1 = [] := by
  unfold search
  by_cases hok : (ensure_initialized st).1 = true
  · rw [if_pos hok]
    exact searchCore_eq_of_nonpos _ fts q fuzzy limit h
  · rw [if_neg hok]

/-- Claim C10, witness: the zero limit on a populated store returns the
empty list. -/
theorem search_nonpos_limit_empty_witness :
    ((0 : Int) ≤ 0) ∧ (search stAE ftsOk "albert" 0 true).1 = [] :=
  ⟨by decide, search_nonpos_limit_empty stAE ftsOk "albert" true 0 (by decide)⟩

end SlugIndex
